/-
Verification of the Parameterized serialization core
(src/parameterized/parameterized.py and src/parameterized/decorators.py).

Python values are shallowly embedded as `PValue`; Python dicts as ordered
association lists; class-level registries and the class-attribute lookup
semantics are made explicit where a claim depends on them.
-/
import Mathlib

set_option autoImplicit false

namespace Parameterized

/-- Embedding of the Python runtime values the library manipulates.
`venum e m` is a live `Enum` member `m` of the enum class named `e`;
`vndarray` a `np.ndarray`; `vpath` a `pathlib.Path`;
`vobj c attrs` a live `Parameterized` instance of class `c`
whose `__dict__` is `attrs`. -/
inductive PValue where
  | vnone : PValue
  | vbool : Bool → PValue
  | vint : Int → PValue
  | vstr : String → PValue
  | vlist : List PValue → PValue
  | vdict : List (String × PValue) → PValue
  | venum : String → String → PValue
  | vndarray : List PValue → PValue
  | vpath : String → PValue
  | vobj : String → List (String × PValue) → PValue

/-- A Python `dict` with string keys, in insertion order. -/
abbrev Dict := List (String × PValue)

/-- A registered conversion rule: an arbitrary callable from value to value. -/
abbrev Rule := PValue → PValue

/-- The Python types a rule can be registered against
(the second components of `type_serializers` / `type_deserializers` tuples). -/
inductive PType where
  | tnone | tbool | tint | tstr | tlist | tdict | tndarray | tpath
  | tparameterized
  | tenumAny
  | tenumOf : String → PType
  | tobjOf : String → PType
  deriving DecidableEq, Repr

/-- Python `isinstance(v, t)` for the embedded values and types.
`bool` is a subclass of `int` in Python, so `vbool` matches `tint`. -/
def isinst : PValue → PType → Bool
  | .vnone, .tnone => true
  | .vbool _, .tbool => true
  | .vbool _, .tint => true
  | .vint _, .tint => true
  | .vstr _, .tstr => true
  | .vlist _, .tlist => true
  | .vdict _, .tdict => true
  | .vndarray _, .tndarray => true
  | .vpath _, .tpath => true
  | .vobj _ _, .tparameterized => true
  | .vobj c _, .tobjOf c' => c = c'
  | .venum _ _, .tenumAny => true
  | .venum e _, .tenumOf e' => e = e'
  | _, _ => false

/-- Python `d[k]` lookup (first — and in a real dict, only — binding wins). -/
def dget {α : Type} (k : String) : List (String × α) → Option α
  | [] => none
  | (a, v) :: rest => if k = a then some v else dget k rest

/-- The keys of a dict, in order. -/
def dkeys {α : Type} (d : List (String × α)) : List String :=
  d.map Prod.fst

/-- Python `k in d`. -/
def dhas {α : Type} (k : String) (d : List (String × α)) : Bool :=
  (dget k d).isSome

/-- Python `d[k] = v` on an existing or new key (update in place, else append). -/
def dset {α : Type} (k : String) (x : α) : List (String × α) → List (String × α)
  | [] => [(k, x)]
  | (a, v) :: rest => if k = a then (k, x) :: rest else (a, v) :: dset k x rest

/-- Python `d.pop(k)`: the value and the dict without that key,
or `none` (a `KeyError`) when the key is absent. -/
def dpop (k : String) : Dict → Option (PValue × Dict)
  | [] => none
  | (a, v) :: rest =>
    if k = a then some (v, rest)
    else (dpop k rest).map (fun p => (p.1, (a, v) :: p.2))

@[simp] theorem dget_nil {α : Type} (k : String) : dget k ([] : List (String × α)) = none := rfl

@[simp] theorem dget_cons {α : Type} (k a : String) (v : α) (rest : List (String × α)) :
    dget k ((a, v) :: rest) = if k = a then some v else dget k rest := rfl

@[simp] theorem dkeys_nil {α : Type} : dkeys ([] : List (String × α)) = [] := rfl

@[simp] theorem dkeys_cons {α : Type} (a : String) (v : α) (rest : List (String × α)) :
    dkeys ((a, v) :: rest) = a :: dkeys rest := rfl

/-- The `for type_, f in type_handlers: if isinstance(value, type_): ... break`
loop shared by `serialize_params` and `deserialize_params`: the first
registered pair whose type matches the value, in registration order. -/
def findFallback (handlers : List (PType × Rule)) (v : PValue) : Option Rule :=
  match handlers with
  | [] => none
  | (t, f) :: rest => if isinst v t then some f else findFallback rest v

/-- Per-class configuration: the class attributes read by the library
(`excluded_params`, the four registries) and the `__init__` signature facts
that `inspect.getfullargspec` reports.
`init_args` is `argspec.args[1:]` (the positional-or-keyword parameters after
`self`), `defaults_count` how many trailing entries of `init_args` carry a
default value (`len(argspec.defaults)`; read by the specification's notion of
"required", never by `create_obj_from_params` itself), `kwonly` is
`argspec.kwonlyargs` and `varkw` whether `**kwargs` is present.
`init_impl` is the constructor body: from the bound positional values and the
keyword dict to the fresh instance's `__dict__`. -/
structure ClassCfg where
  excluded : List String
  pserial : List (String × Rule)
  tserial : List (PType × Rule)
  pdeser : List (String × Rule)
  tdeser : List (PType × Rule)
  init_args : List String
  defaults_count : Nat
  kwonly : List String
  varkw : Bool
  init_impl : List PValue → Dict → Dict

/-- The process-wide class table, giving each class name its configuration
(used when a built-in converter recurses into a nested `Parameterized`
object via `value.get_params()`). -/
abbrev Env := String → ClassCfg

mutual

/-- The per-attribute body of `serialize_params`: exact-attribute rule first,
then the four built-in converters, else the first matching registered type
rule, else the value unchanged. -/
def serializeValue (env : Env) (ps : List (String × Rule)) (ts : List (PType × Rule))
    (attr : String) (v : PValue) : PValue :=
  match dget attr ps with
  | some f => f v
  | none =>
    match v with
    | .vobj c attrs =>
      -- built-in: `value.get_params()` with the nested object's own class state
      .vdict (serializeDict env (env c).excluded (env c).pserial (env c).tserial attrs)
    | .vndarray xs => .vlist xs
    | .venum _ m => .vstr m
    | .vpath p => .vstr p
    | w =>
      match findFallback ts w with
      | some f => f w
      | none => w

/-- Python `serialize_params`: shallow-copy the dict without the excluded keys, then
rewrite each remaining entry's value in place. -/
def serializeDict (env : Env) (excl : List String) (ps : List (String × Rule))
    (ts : List (PType × Rule)) : Dict → Dict
  | [] => []
  | (k, v) :: rest =>
    if k ∈ excl then serializeDict env excl ps ts rest
    else (k, serializeValue env ps ts k v) :: serializeDict env excl ps ts rest

end

/-- The per-attribute body of `deserialize_params`: exact-attribute rule
first, else the first matching registered type rule, else unchanged
(there are no built-ins in this direction). -/
def deserializeValue (pd : List (String × Rule)) (td : List (PType × Rule))
    (attr : String) (v : PValue) : PValue :=
  match dget attr pd with
  | some f => f v
  | none =>
    match findFallback td v with
    | some f => f v
    | none => v

/-- Python `deserialize_params`: shallow-copy the dict without the excluded keys,
then rewrite each remaining entry's value in place. -/
def deserializeDict (excl : List String) (pd : List (String × Rule))
    (td : List (PType × Rule)) : Dict → Dict
  | [] => []
  | (k, v) :: rest =>
    if k ∈ excl then deserializeDict excl pd td rest
    else (k, deserializeValue pd td k v) :: deserializeDict excl pd td rest

/-- Python `Parameterized.get_params`: serialize the instance `__dict__` with the
class's exclusion set and registries. -/
def getParams (env : Env) (cfg : ClassCfg) (selfDict : Dict) : Dict :=
  serializeDict env cfg.excluded cfg.pserial cfg.tserial selfDict

/-- Python `Parameterized.update_from_params`: optionally deserialize the incoming
mapping, then for each existing attribute take the mapping's value when the
key is present (`KeyError` is swallowed, leaving the attribute unchanged). -/
def updateFromParams (cfg : ClassCfg) (selfDict : Dict) (params : Dict)
    (useDeserializers : Bool) : Dict :=
  let params' := if useDeserializers
    then deserializeDict cfg.excluded cfg.pdeser cfg.tdeser params
    else params
  selfDict.map (fun kv =>
    match dget kv.1 params' with
    | some w => (kv.1, w)
    | none => kv)

/-- The exceptions the library raises.  The Python code raises bare
`Exception` / built-in exceptions; each constructor records one raise site:
`missingArgument` the "unable to call `__init__()` due to lack of required
arguments" raise, `typeEnumMissing` the "type_enum attribute does not exist"
raise, `keyErrorType` the `KeyError` from `params.pop("type")`,
`enumKeyError` the `KeyError` from `cls.type_enum[t]`, `typeError` the
`TypeError` from subscripting a `property` object, and `unknownVariant`
the "Unable to create subclass of the given type" raise. -/
inductive PErr where
  | missingArgument
  | typeEnumMissing
  | keyErrorType
  | enumKeyError
  | typeError
  | unknownVariant
  deriving DecidableEq, Repr

/-- The `for arg in init_args_spec.args[1:]` loop of `create_obj_from_params`:
pop every positional parameter by name, in order, failing on the first
absent one. -/
def popArgs : List String → Dict → Except PErr (List PValue × Dict)
  | [], d => .ok ([], d)
  | a :: as, d =>
    match dpop a d with
    | none => .error .missingArgument
    | some (v, d') =>
      match popArgs as d' with
      | .error e => .error e
      | .ok (vs, d'') => .ok (v :: vs, d'')

/-- The `{kwarg: params.pop(kwarg) for kwarg in kwonlyargs if kwarg in params}`
comprehension: the keyword dict built and the remaining params. -/
def popKwonly : List String → Dict → Dict × Dict
  | [], d => ([], d)
  | k :: ks, d =>
    match dpop k d with
    | none => popKwonly ks d
    | some (v, d') =>
      let p := popKwonly ks d'
      ((k, v) :: p.1, p.2)

/-- Python `create_obj_from_params`: work on a copy of `params`, pop every
positional parameter (raising when one is absent), build the keyword dict
(everything left when `**kwargs` exists, else only present keyword-only
names), call the constructor, and apply the leftovers with
`update_from_params(..., use_deserializers=False)`. -/
def createObjFromParams (cfg : ClassCfg) (params : Dict) : Except PErr Dict :=
  -- `params = params.copy()`: all pops below act on the copy only
  match popArgs cfg.init_args params with
  | .error e => .error e
  | .ok (argvals, params1) =>
    let kw := if cfg.varkw then (params1, ([] : Dict)) else popKwonly cfg.kwonly params1
    let obj := cfg.init_impl argvals kw.1
    .ok (updateFromParams cfg obj kw.2 false)

/-- Python `Parameterized.from_params`: deserialize, then construct. -/
def fromParams (cfg : ClassCfg) (params : Dict) : Except PErr Dict :=
  createObjFromParams cfg (deserializeDict cfg.excluded cfg.pdeser cfg.tdeser params)

/-- What `cls.type_enum` denotes on a `ParameterizedABC` descendant:
`absent` (no such attribute anywhere — impossible below `ParameterizedABC`,
which declares it as an abstract property), `prop` (only the inherited
abstract `property` object is found), or a concrete enum class with its
member names. -/
inductive TypeEnumAttr where
  | absent
  | prop
  | concrete : String → List String → TypeEnumAttr

/-- What `s.type_` denotes on a subclass: absent, the inherited abstract
`property` object, or a concrete member `m` of the enum class `e`. -/
inductive TypeAttr where
  | absent
  | prop
  | concrete : String → String → TypeAttr

/-- Python `hasattr(cls, "type_enum")`: true whenever anything — even the
abstract property object — is found by attribute lookup. -/
def hasattrTypeEnum : TypeEnumAttr → Bool
  | .absent => false
  | _ => true

/-- Python `hasattr(s, "type_")`. -/
def hasattrType : TypeAttr → Bool
  | .absent => false
  | _ => true

/-- Python `type(s.type_) == cls.type_enum`: true exactly when `s.type_` is a
live member of a concrete enum class equal to the declared one.  When either
side resolves to the abstract `property` object the comparison is false
(the type of a `property` object is never an enum class, and a class never
equals a `property` object). -/
def typeAttrMatches : TypeEnumAttr → TypeAttr → Bool
  | .concrete e _, .concrete e' _ => e = e'
  | _, _ => false

/-- A subclass reached by `all_subclasses(cls)`. -/
structure ABCSub where
  name : String
  typeAttr : TypeAttr
  isAbstract : Bool
  cfg : ClassCfg

/-- A `ParameterizedABC` family root: its `type_enum` attribute, its
`excluded_subclasses`, the transitive subclasses found by inspection, and
its own class configuration. -/
structure FamilyCfg where
  typeEnum : TypeEnumAttr
  excludedSubclasses : List String
  subclasses : List ABCSub
  cfg : ClassCfg

/-- The set comprehension inside `all_parameterized_subclasses`. -/
def eligibleSubclasses (fam : FamilyCfg) : List ABCSub :=
  fam.subclasses.filter (fun s =>
    hasattrType s.typeAttr
    && typeAttrMatches fam.typeEnum s.typeAttr
    && !s.isAbstract
    && !(fam.excludedSubclasses.contains s.name))

/-- Python `ParameterizedABC.all_parameterized_subclasses`. -/
def allParameterizedSubclasses (fam : FamilyCfg) : Except PErr (List ABCSub) :=
  if hasattrTypeEnum fam.typeEnum = false then .error .typeEnumMissing
  else .ok (eligibleSubclasses fam)

/-- The `for c in subclasses: if c.type_ == t: ... break` search. -/
def findSubclass (norm : String × String) : List ABCSub → Option ABCSub
  | [] => none
  | s :: rest =>
    match s.typeAttr with
    | .concrete e m => if (e, m) = norm then some s else findSubclass norm rest
    | _ => findSubclass norm rest

/-- Python `t = params.pop("type"); if not isinstance(t, Enum): t = cls.type_enum[t]`:
a live enum member passes through; otherwise the tag is looked up by name in
`cls.type_enum`, which is a `KeyError` for an unknown name or a non-string,
and a `TypeError` when `cls.type_enum` is only the abstract `property`
object (a `property` is not subscriptable). -/
def normalizeTag (te : TypeEnumAttr) (t : PValue) : Except PErr (String × String) :=
  match t with
  | .venum e m => .ok (e, m)
  | .vstr s =>
    match te with
    | .concrete e members => if s ∈ members then .ok (e, s) else .error .enumKeyError
    | .prop => .error .typeError
    | .absent => .error .typeEnumMissing
  | _ =>
    match te with
    | .concrete _ _ => .error .enumKeyError
    | .prop => .error .typeError
    | .absent => .error .typeEnumMissing

/-- Python `ParameterizedABC.from_params`: the (always-satisfied below
`ParameterizedABC`) `hasattr` guard, deserialization, tag extraction and
normalization, subclass search, and construction of the found subclass. -/
def fromParamsABC (fam : FamilyCfg) (params : Dict) : Except PErr Dict :=
  if hasattrTypeEnum fam.typeEnum = false then .error .typeEnumMissing
  else
    let params' := deserializeDict fam.cfg.excluded fam.cfg.pdeser fam.cfg.tdeser params
    match dpop "type" params' with
    | none => .error .keyErrorType
    | some (t0, params'') =>
      match normalizeTag fam.typeEnum t0 with
      | .error e => .error e
      | .ok norm =>
        match findSubclass norm (eligibleSubclasses fam) with
        | none => .error .unknownVariant
        | some c => createObjFromParams c.cfg params''

/-!
Registry storage (claim C1)

`Parameterized` declares `_param_deserializers = {}` (and the three other
registries) once, in its own class body; no subclass in the repository
declares its own copy.  `register_serializers` writes through
`cls._param_deserializers[param] = rule`, i.e. attribute *lookup* followed by
item assignment on whatever dict object the lookup found.  To reason about
which types a registration affects, the heap of registry dict objects is made
explicit: which class *owns* a dict, and its contents.
-/

/-- Class name → the `_param_deserializers` dict that class's body declared
(only classes that declare one appear; `Parameterized` always does). -/
abbrev RegHeap := List (String × List (String × Rule))

/-- Python attribute lookup: the first class along the method resolution
order that owns the attribute. -/
def findRegOwner (heap : RegHeap) : List String → Option String
  | [] => none
  | c :: rest => if dhas c heap then some c else findRegOwner heap rest

/-- The dict that `cls._param_deserializers` evaluates to for a class with
the given method resolution order. -/
def effectiveParamDeserializers (heap : RegHeap) (mro : List String) : List (String × Rule) :=
  match findRegOwner heap mro with
  | some o => (dget o heap).getD []
  | none => []

/-- Python `cls._param_deserializers[param] = rule` inside `register_serializers`:
look the dict up along the method resolution order and mutate *that* object
in place; no per-class dict is ever created. -/
def registerParamDeserializer (heap : RegHeap) (mro : List String) (attr : String)
    (r : Rule) : RegHeap :=
  match findRegOwner heap mro with
  | some o => dset o (dset attr r ((dget o heap).getD [])) heap
  | none => heap

/-!
Mutation of caller-supplied dicts (claim C10)

To state that the library never mutates the mapping a caller passes in, dict
*objects* are given identities: a store holds every dict, functions receive
references, and each Python statement that writes into a dict becomes a
store write at that dict's reference.  The transcriptions below perform
exactly the writes the source performs: `serialize_params` /
`deserialize_params` allocate `result` fresh and write only to it;
`create_obj_from_params` allocates `params.copy()` and pops only from the
copy.
-/

/-- A store of dict objects, addressed by allocation index. -/
abbrev Store := List Dict

/-- Read the dict object at a reference. -/
def readS (st : Store) (i : Nat) : Dict := (st.get? i).getD []

/-- Overwrite the dict object at a reference. -/
def writeS (st : Store) (i : Nat) (d : Dict) : Store := st.set i d

/-- Allocate a fresh dict object. -/
def allocS (st : Store) (d : Dict) : Store × Nat := (st ++ [d], st.length)

/-- The `for attr in result: result[attr] = <serialized value>` loop of
`serialize_params`, writing to the `result` object only. -/
def serializeLoopS (env : Env) (ps : List (String × Rule)) (ts : List (PType × Rule))
    (st : Store) (res : Nat) : List String → Store
  | [] => st
  | k :: rest =>
    let d := readS st res
    let st' := match dget k d with
      | some v => writeS st res (dset k (serializeValue env ps ts k v) d)
      | none => st
    serializeLoopS env ps ts st' res rest

/-- Python `serialize_params` on the store: allocate the comprehension result, then
run the rewrite loop over its keys; return the new store and the reference
to the freshly built dict. -/
def serializeParamsS (env : Env) (excl : List String) (ps : List (String × Rule))
    (ts : List (PType × Rule)) (st : Store) (src : Nat) : Store × Nat :=
  let a := allocS st ((readS st src).filter (fun kv => !(excl.contains kv.1)))
  (serializeLoopS env ps ts a.1 a.2 (dkeys (readS a.1 a.2)), a.2)

/-- The rewrite loop of `deserialize_params`, writing to `result` only. -/
def deserializeLoopS (pd : List (String × Rule)) (td : List (PType × Rule))
    (st : Store) (res : Nat) : List String → Store
  | [] => st
  | k :: rest =>
    let d := readS st res
    let st' := match dget k d with
      | some v => writeS st res (dset k (deserializeValue pd td k v) d)
      | none => st
    deserializeLoopS pd td st' res rest

/-- Python `deserialize_params` on the store. -/
def deserializeParamsS (excl : List String) (pd : List (String × Rule))
    (td : List (PType × Rule)) (st : Store) (src : Nat) : Store × Nat :=
  let a := allocS st ((readS st src).filter (fun kv => !(excl.contains kv.1)))
  (deserializeLoopS pd td a.1 a.2 (dkeys (readS a.1 a.2)), a.2)

/-- The positional-argument pops of `create_obj_from_params`, each one a
write to the popped dict object. -/
def popArgsS (st : Store) (ref : Nat) : List String → Store × Except PErr (List PValue)
  | [] => (st, .ok [])
  | a :: as =>
    match dpop a (readS st ref) with
    | none => (st, .error .missingArgument)
    | some p =>
      let st' := writeS st ref p.2
      match popArgsS st' ref as with
      | (st'', .error e) => (st'', .error e)
      | (st'', .ok vs) => (st'', .ok (p.1 :: vs))

/-- The keyword-only pops of `create_obj_from_params` on the store. -/
def popKwonlyS (st : Store) (ref : Nat) : List String → Store × Dict
  | [] => (st, [])
  | k :: ks =>
    match dpop k (readS st ref) with
    | none => popKwonlyS st ref ks
    | some p =>
      let st' := writeS st ref p.2
      let q := popKwonlyS st' ref ks
      (q.1, (k, p.1) :: q.2)

/-- Python `create_obj_from_params` on the store: `params = params.copy()` allocates
the copy, every pop writes to the copy, and the constructed object's dict is
fresh. -/
def createObjFromParamsS (cfg : ClassCfg) (st : Store) (paramsRef : Nat) :
    Store × Except PErr Dict :=
  let a := allocS st (readS st paramsRef)
  match popArgsS a.1 a.2 cfg.init_args with
  | (st2, .error e) => (st2, .error e)
  | (st2, .ok argvals) =>
    if cfg.varkw then
      -- kwargs = params; params = {} (a rebinding, not a write)
      let obj := cfg.init_impl argvals (readS st2 a.2)
      (st2, .ok (updateFromParams cfg obj [] false))
    else
      let q := popKwonlyS st2 a.2 cfg.kwonly
      let obj := cfg.init_impl argvals q.2
      (q.1, .ok (updateFromParams cfg obj (readS q.1 a.2) false))

/-- Python `Parameterized.from_params` on the store: deserialize (allocating the
result), then construct from the deserialized dict. -/
def fromParamsS (cfg : ClassCfg) (st : Store) (paramsRef : Nat) :
    Store × Except PErr Dict :=
  let a := deserializeParamsS cfg.excluded cfg.pdeser cfg.tdeser st paramsRef
  createObjFromParamsS cfg a.1 a.2

/-!
Specification-side vocabulary

Definitions below render notions the specification speaks about but the code
never reads; they are used to state claims, never inside the transcribed
operations.
-/

/-- The *required* constructor parameters in the specification's sense: the
positional parameters not covered by a trailing default value
(`argspec.args[1:]` minus the last `len(argspec.defaults)` of them). -/
def requiredArgs (cfg : ClassCfg) : List String :=
  cfg.init_args.take (cfg.init_args.length - cfg.defaults_count)

/-- What `cls.excluded_params` evaluates to by Python attribute lookup, given
the `excluded_params` declarations of the classes along the method resolution
order that declare one, most-derived first (the list is never empty:
`Parameterized` itself declares `set()`): the *nearest* declaration shadows
all others. -/
def effectiveExcludedParams (decls : List (List String)) : List String :=
  decls.headD []

/-- The specification's effective exclusion set: the union of the type's own
`excluded_params` declaration and those of all its ancestors. -/
def unionExcludedParams (decls : List (List String)) : List String :=
  decls.foldr (· ++ ·) []

/-- Whether a value is of one of the four built-in converter kinds
(nested `Parameterized` object, numpy array, `Enum` member, `Path`). -/
def isBuiltinKind : PValue → Bool
  | .vobj _ _ => true
  | .vndarray _ => true
  | .venum _ _ => true
  | .vpath _ => true
  | _ => false

/-- The built-in serialize conversion for the four built-in kinds
(identity elsewhere). -/
def builtinSerialize (env : Env) : PValue → PValue
  | .vobj c attrs =>
    .vdict (serializeDict env (env c).excluded (env c).pserial (env c).tserial attrs)
  | .vndarray xs => .vlist xs
  | .venum _ m => .vstr m
  | .vpath p => .vstr p
  | v => v

/-!
Shared concrete instances (used by witnesses and counterexamples)
-/

/-- A constructor that binds every positional parameter to the same-named
attribute and stores every keyword argument, in that order. -/
def storingInit (names : List String) : List PValue → Dict → Dict :=
  fun argvals kwargs => names.zip argvals ++ kwargs

/-- A class with empty registries, no exclusions and an attribute-storing
`__init__(self, **kwargs)`. -/
def trivialCfg : ClassCfg :=
  ⟨[], [], [], [], [], [], 0, [], true, storingInit []⟩

/-- A class table where every class is `trivialCfg`. -/
def trivialEnv : Env := fun _ => trivialCfg

/-!
Association-list lemmas
-/

theorem dget_eq_none_iff {α : Type} (k : String) (d : List (String × α)) :
    dget k d = none ↔ k ∉ dkeys d := by
  induction d with
  | nil => simp
  | cons kv rest ih =>
    obtain ⟨a, v⟩ := kv
    by_cases hka : k = a <;> simp [hka, ih]

theorem dget_isSome_iff {α : Type} (k : String) (d : List (String × α)) :
    (dget k d).isSome ↔ k ∈ dkeys d := by
  rw [Option.isSome_iff_ne_none, ne_eq, dget_eq_none_iff, not_not]

theorem dpop_eq_none_iff (k : String) (d : Dict) :
    dpop k d = none ↔ dget k d = none := by
  induction d with
  | nil => simp [dpop]
  | cons kv rest ih =>
    obtain ⟨a, v⟩ := kv
    by_cases hka : k = a <;> simp [dpop, hka, ih]

/-- Removing the (first) binding of a key, used only to characterize `dpop`. -/
def derase (k : String) : Dict → Dict
  | [] => []
  | (a, v) :: rest => if k = a then rest else (a, v) :: derase k rest

theorem dpop_eq (k : String) (d : Dict) :
    dpop k d = (dget k d).map (fun v => (v, derase k d)) := by
  induction d with
  | nil => rfl
  | cons kv rest ih =>
    obtain ⟨a, w⟩ := kv
    by_cases hka : k = a
    · simp [dpop, derase, hka]
    · cases hrec : dget k rest with
      | none => simp [dpop, derase, hka, ih, hrec]
      | some v => simp [dpop, derase, hka, ih, hrec]

theorem dget_derase_other {a k : String} (hak : a ≠ k) (d : Dict) :
    dget a (derase k d) = dget a d := by
  induction d with
  | nil => rfl
  | cons kv rest ih =>
    obtain ⟨b, w⟩ := kv
    by_cases hkb : k = b
    · have hab : a ≠ b := hkb ▸ hak
      simp [derase, hkb, hab]
    · by_cases hab : a = b
      · simp [derase, hkb, hab]
      · simp [derase, hkb, hab, ih]

theorem dpop_of_dget_some {k : String} {d : Dict} {v : PValue} (h : dget k d = some v) :
    dpop k d = some (v, derase k d) := by
  rw [dpop_eq, h, Option.map_some']

theorem dget_of_dpop_some {k : String} {d : Dict} {v : PValue} {d' : Dict}
    (h : dpop k d = some (v, d')) : dget k d = some v ∧ d' = derase k d := by
  rw [dpop_eq] at h
  cases hg : dget k d with
  | none => rw [hg] at h; simp at h
  | some w =>
    rw [hg] at h
    simp at h
    exact ⟨by rw [h.1], h.2.symm⟩

theorem dget_dpop_other {k : String} {d : Dict} {v : PValue} {d' : Dict}
    (h : dpop k d = some (v, d')) {a : String} (hak : a ≠ k) :
    dget a d' = dget a d := by
  rw [(dget_of_dpop_some h).2]
  exact dget_derase_other hak d

/-!
Lookup characterizations of the projections
-/

theorem dget_serializeDict_excl (env : Env) {excl : List String}
    (ps : List (String × Rule)) (ts : List (PType × Rule)) {k : String}
    (hk : k ∈ excl) (d : Dict) :
    dget k (serializeDict env excl ps ts d) = none := by
  induction d with
  | nil => rfl
  | cons kv rest ih =>
    obtain ⟨a, v⟩ := kv
    by_cases ha : a ∈ excl
    · simpa [serializeDict, ha] using ih
    · have hka : k ≠ a := fun h => ha (h ▸ hk)
      simpa [serializeDict, ha, hka] using ih

theorem dget_serializeDict (env : Env) {excl : List String}
    (ps : List (String × Rule)) (ts : List (PType × Rule)) {k : String}
    (hk : k ∉ excl) (d : Dict) :
    dget k (serializeDict env excl ps ts d)
      = (dget k d).map (serializeValue env ps ts k) := by
  induction d with
  | nil => rfl
  | cons kv rest ih =>
    obtain ⟨a, v⟩ := kv
    by_cases ha : a ∈ excl
    · have hka : k ≠ a := fun h => hk (h ▸ ha)
      simpa [serializeDict, ha, hka] using ih
    · by_cases hka : k = a
      · simp [serializeDict, ha, hka]
      · simpa [serializeDict, ha, hka] using ih

theorem dget_deserializeDict_excl {excl : List String}
    (pd : List (String × Rule)) (td : List (PType × Rule)) {k : String}
    (hk : k ∈ excl) (d : Dict) :
    dget k (deserializeDict excl pd td d) = none := by
  induction d with
  | nil => rfl
  | cons kv rest ih =>
    obtain ⟨a, v⟩ := kv
    by_cases ha : a ∈ excl
    · simpa [deserializeDict, ha] using ih
    · have hka : k ≠ a := fun h => ha (h ▸ hk)
      simpa [deserializeDict, ha, hka] using ih

theorem dget_deserializeDict {excl : List String}
    (pd : List (String × Rule)) (td : List (PType × Rule)) {k : String}
    (hk : k ∉ excl) (d : Dict) :
    dget k (deserializeDict excl pd td d)
      = (dget k d).map (deserializeValue pd td k) := by
  induction d with
  | nil => rfl
  | cons kv rest ih =>
    obtain ⟨a, v⟩ := kv
    by_cases ha : a ∈ excl
    · have hka : k ≠ a := fun h => hk (h ▸ ha)
      simpa [deserializeDict, ha, hka] using ih
    · by_cases hka : k = a
      · simp [deserializeDict, ha, hka]
      · simpa [deserializeDict, ha, hka] using ih

theorem dget_deserializeDict_none {excl : List String}
    (pd : List (String × Rule)) (td : List (PType × Rule)) {k : String} {d : Dict}
    (hk : dget k d = none) :
    dget k (deserializeDict excl pd td d) = none := by
  by_cases hkx : k ∈ excl
  · exact dget_deserializeDict_excl pd td hkx d
  · rw [dget_deserializeDict pd td hkx d, hk]; rfl

/-- The update loop of `update_from_params`, after deserialization: the value
at each existing attribute is replaced by the (deserialized) mapping's value
when present. -/
theorem dget_updateFromParams (cfg : ClassCfg) (selfD params : Dict)
    (useDeserializers : Bool) (a : String) :
    dget a (updateFromParams cfg selfD params useDeserializers)
      = (dget a selfD).map (fun v =>
          match dget a (if useDeserializers
            then deserializeDict cfg.excluded cfg.pdeser cfg.tdeser params
            else params) with
          | some w => w
          | none => v) := by
  unfold updateFromParams
  induction selfD with
  | nil => rfl
  | cons kv rest ih =>
    obtain ⟨b, v⟩ := kv
    by_cases hab : a = b
    · subst hab
      cases hb : dget a (if useDeserializers
        then deserializeDict cfg.excluded cfg.pdeser cfg.tdeser params
        else params) with
      | none => simp [hb]
      | some w => simp [hb]
    · cases hb : dget b (if useDeserializers
        then deserializeDict cfg.excluded cfg.pdeser cfg.tdeser params
        else params) with
      | none => simpa [hb, hab] using ih
      | some w => simpa [hb, hab] using ih

theorem dkeys_updateFromParams (cfg : ClassCfg) (selfD params : Dict)
    (useDeserializers : Bool) :
    dkeys (updateFromParams cfg selfD params useDeserializers) = dkeys selfD := by
  unfold updateFromParams
  induction selfD with
  | nil => rfl
  | cons kv rest ih =>
    obtain ⟨b, v⟩ := kv
    cases hb : dget b (if useDeserializers
      then deserializeDict cfg.excluded cfg.pdeser cfg.tdeser params
      else params) with
    | none => simpa [hb] using ih
    | some w => simpa [hb] using ih

/-!
Constructor-binding lemmas
-/

theorem popArgs_missing_iff {as : List String} (hnd : as.Nodup) (d : Dict) :
    popArgs as d = .error .missingArgument ↔ ∃ a ∈ as, dget a d = none := by
  induction as generalizing d with
  | nil => simp [popArgs]
  | cons a as ih =>
    obtain ⟨hna, hnd'⟩ := List.nodup_cons.mp hnd
    have hrest : ∀ b ∈ as, dget b (derase a d) = dget b d := fun b hb =>
      dget_derase_other (fun h => hna (by rwa [h] at hb)) d
    cases hga : dget a d with
    | none =>
      have hp : dpop a d = none := (dpop_eq_none_iff a d).mpr hga
      constructor
      · intro _; exact ⟨a, List.mem_cons_self a as, hga⟩
      · intro _; simp only [popArgs, hp]
    | some v =>
      have hpop : dpop a d = some (v, derase a d) := dpop_of_dget_some hga
      simp only [popArgs, hpop]
      constructor
      · intro h
        cases hrec : popArgs as (derase a d) with
        | error e =>
          rw [hrec] at h
          have he : e = PErr.missingArgument := by
            simpa using h
          obtain ⟨b, hb, hbn⟩ := (ih hnd' (derase a d)).mp (he ▸ hrec)
          exact ⟨b, List.mem_cons_of_mem a hb, (hrest b hb).symm.trans hbn⟩
        | ok p => rw [hrec] at h; simp at h
      · rintro ⟨b, hb, hbn⟩
        rcases List.mem_cons.mp hb with rfl | hb'
        · rw [hga] at hbn; cases hbn
        · have hr : popArgs as (derase a d) = .error .missingArgument :=
            (ih hnd' (derase a d)).mpr ⟨b, hb', (hrest b hb').trans hbn⟩
          rw [hr]

theorem popArgs_ok_spec {as : List String} (hnd : as.Nodup) {d : Dict}
    (hall : ∀ a ∈ as, dget a d ≠ none) :
    ∃ vs d', popArgs as d = .ok (vs, d') ∧ vs.length = as.length ∧
      ∀ k, dget k (as.zip vs ++ d') = dget k d := by
  induction as generalizing d with
  | nil => exact ⟨[], d, rfl, rfl, fun k => rfl⟩
  | cons a as ih =>
    obtain ⟨hna, hnd'⟩ := List.nodup_cons.mp hnd
    have hrest : ∀ b ∈ as, dget b (derase a d) = dget b d := fun b hb =>
      dget_derase_other (fun h => hna (by rwa [h] at hb)) d
    cases hga : dget a d with
    | none => exact absurd hga (hall a (List.mem_cons_self a as))
    | some v =>
      have hpop : dpop a d = some (v, derase a d) := dpop_of_dget_some hga
      obtain ⟨vs, d', hok, hlen, hget⟩ := ih hnd'
        (fun b hb => by
          rw [hrest b hb]; exact hall b (List.mem_cons_of_mem a hb))
      refine ⟨v :: vs, d', ?_, by simpa using hlen, ?_⟩
      · simp only [popArgs, hpop, hok]
      · intro k
        by_cases hka : k = a
        · subst hka; simpa using hga.symm
        · simpa [hka] using (hget k).trans (dget_derase_other hka d)

/-- If no registered type matches the value, the fallback scan finds nothing. -/
theorem findFallback_eq_none {td : List (PType × Rule)} {v : PValue}
    (h : ∀ p ∈ td, isinst v p.1 = false) : findFallback td v = none := by
  induction td with
  | nil => rfl
  | cons p rest ih =>
    obtain ⟨t, f⟩ := p
    have ht : isinst v t = false := h (t, f) (List.mem_cons_self _ _)
    simp [findFallback, ht]
    exact ih (fun q hq => h q (List.mem_cons_of_mem _ hq))

/-!
Subclass-search lemmas
-/

theorem findSubclass_eq_some {e s : String} {l : List ABCSub} {m : ABCSub}
    (hm : m ∈ l) (hms : m.typeAttr = .concrete e s)
    (huniq : ∀ m' ∈ l, m'.typeAttr = .concrete e s → m' = m) :
    findSubclass (e, s) l = some m := by
  induction l with
  | nil => cases hm
  | cons x rest ih =>
    cases hx : x.typeAttr with
    | concrete e' s' =>
      by_cases heq : e' = e ∧ s' = s
      · have hxm : x = m := huniq x (List.mem_cons_self x rest)
          (by rw [hx, heq.1, heq.2])
        simp [findSubclass, hxm, hms]
      · have hne : ¬((e', s') = (e, s)) := by
          simp only [Prod.mk.injEq]; exact heq
        have hm' : m ∈ rest := by
          rcases List.mem_cons.mp hm with rfl | h'
          · exfalso
            apply heq
            have hc := hx.symm.trans hms
            injection hc with h1 h2
            exact ⟨h1, h2⟩
          · exact h'
        simp only [findSubclass, hx, if_neg hne]
        exact ih hm' (fun m'' hm'' ht => huniq m'' (List.mem_cons_of_mem x hm'') ht)
    | prop =>
      have hm' : m ∈ rest := by
        rcases List.mem_cons.mp hm with rfl | h'
        · rw [hms] at hx; cases hx
        · exact h'
      simp only [findSubclass, hx]
      exact ih hm' (fun m'' hm'' ht => huniq m'' (List.mem_cons_of_mem x hm'') ht)
    | absent =>
      have hm' : m ∈ rest := by
        rcases List.mem_cons.mp hm with rfl | h'
        · rw [hms] at hx; cases hx
        · exact h'
      simp only [findSubclass, hx]
      exact ih hm' (fun m'' hm'' ht => huniq m'' (List.mem_cons_of_mem x hm'') ht)

theorem findSubclass_eq_none {e s : String} {l : List ABCSub}
    (h : ∀ m' ∈ l, m'.typeAttr ≠ .concrete e s) :
    findSubclass (e, s) l = none := by
  induction l with
  | nil => rfl
  | cons x rest ih =>
    have hrest := ih (fun m' hm' => h m' (List.mem_cons_of_mem x hm'))
    cases hx : x.typeAttr with
    | concrete e' s' =>
      have hne : ¬((e', s') = (e, s)) := by
        intro hc
        apply h x (List.mem_cons_self x rest)
        rw [hx]
        simp only [Prod.mk.injEq] at hc
        rw [hc.1, hc.2]
      simp only [findSubclass, hx, if_neg hne]
      exact hrest
    | prop => simp only [findSubclass, hx]; exact hrest
    | absent => simp only [findSubclass, hx]; exact hrest

/-!
Store lemmas (dict-object identity)
-/

theorem readS_writeS_of_ne {i j : Nat} (h : j ≠ i) (st : Store) (d : Dict) :
    readS (writeS st i d) j = readS st j := by
  unfold readS writeS
  rw [List.get?_set_ne _ _ (fun hc => h hc.symm)]

theorem readS_append_of_lt {j : Nat} {st : Store} (h : j < st.length) (d : Dict) :
    readS (st ++ [d]) j = readS st j := by
  unfold readS
  rw [List.get?_append h]

theorem readS_serializeLoopS {env : Env} {ps : List (String × Rule)}
    {ts : List (PType × Rule)} {res j : Nat} (h : j ≠ res) (st : Store)
    (ks : List String) :
    readS (serializeLoopS env ps ts st res ks) j = readS st j := by
  induction ks generalizing st with
  | nil => rfl
  | cons k rest ih =>
    simp only [serializeLoopS]
    cases dget k (readS st res) with
    | none => exact ih st
    | some v => exact (ih _).trans (readS_writeS_of_ne h st _)

theorem readS_deserializeLoopS {pd : List (String × Rule)}
    {td : List (PType × Rule)} {res j : Nat} (h : j ≠ res) (st : Store)
    (ks : List String) :
    readS (deserializeLoopS pd td st res ks) j = readS st j := by
  induction ks generalizing st with
  | nil => rfl
  | cons k rest ih =>
    simp only [deserializeLoopS]
    cases dget k (readS st res) with
    | none => exact ih st
    | some v => exact (ih _).trans (readS_writeS_of_ne h st _)

theorem readS_popArgsS {ref j : Nat} (h : j ≠ ref) (st : Store)
    (as : List String) :
    readS (popArgsS st ref as).1 j = readS st j := by
  induction as generalizing st with
  | nil => rfl
  | cons a rest ih =>
    simp only [popArgsS]
    cases dpop a (readS st ref) with
    | none => rfl
    | some p =>
      rcases hrec : popArgsS (writeS st ref p.2) ref rest with ⟨st'', r⟩
      have hst : readS st'' j = readS st j := by
        have hi := ih (writeS st ref p.2)
        rw [hrec] at hi
        exact hi.trans (readS_writeS_of_ne h st p.2)
      show readS (match popArgsS (writeS st ref p.2) ref rest with
        | (st₂, Except.error e) => (st₂, Except.error e)
        | (st₂, Except.ok vs) => (st₂, Except.ok (p.1 :: vs))).1 j = readS st j
      rw [hrec]
      cases r <;> simpa using hst

theorem readS_popKwonlyS {ref j : Nat} (h : j ≠ ref) (st : Store)
    (ks : List String) :
    readS (popKwonlyS st ref ks).1 j = readS st j := by
  induction ks generalizing st with
  | nil => rfl
  | cons k rest ih =>
    simp only [popKwonlyS]
    cases dpop k (readS st ref) with
    | none => exact ih st
    | some p => exact (ih _).trans (readS_writeS_of_ne h st p.2)

/-!
The claims
-/

/-- The deserializer `register_serializers(enum_params=[("c", TempEnum)])`
installs: `lambda val: val if isinstance(val, enum_cls) else enum_cls[val]`
(restricted to the value shapes exercised here). -/
def ruleC1 : Rule := fun val =>
  if isinst val (PType.tenumOf "TempEnum") then val
  else match val with
    | .vstr s => .venum "TempEnum" s
    | w => w

/-- The registry heap at import time: only `Parameterized` declares
`_param_deserializers = {}`. -/
def heapInit : RegHeap := [("Parameterized", [])]

/-- The heap after decorating sibling class `A` (a direct subclass of
`Parameterized`) with `register_serializers(enum_params=[("c", TempEnum)])`.
`B`, another direct subclass, is not decorated. -/
def heapAfterA : RegHeap :=
  registerParamDeserializer heapInit ["A", "Parameterized"] "c" ruleC1

/-- C1: registering a conversion rule for one concrete type is claimed to
affect only that type and its descendants.  In the code the registries are
dicts declared once on the `Parameterized` base and mutated through
attribute lookup, so registering on `A` lands in the shared base dict: the
unrelated sibling `B`'s effective registry, and hence its deserialization
behaviour, changes. -/
theorem c1_registration_on_one_class_leaks_to_sibling :
    effectiveParamDeserializers heapInit ["B", "Parameterized"] = []
    ∧ effectiveParamDeserializers heapAfterA ["B", "Parameterized"] = [("c", ruleC1)]
    ∧ deserializeDict [] (effectiveParamDeserializers heapInit ["B", "Parameterized"]) []
        [("c", .vstr "ONE")] = [("c", .vstr "ONE")]
    ∧ deserializeDict [] (effectiveParamDeserializers heapAfterA ["B", "Parameterized"]) []
        [("c", .vstr "ONE")] = [("c", .venum "TempEnum" "ONE")] :=
  ⟨rfl, rfl, rfl, rfl⟩

/-- C2 counterexample: with no exact-attribute rule, a registered
type-matched fallback rule for `Enum` values that *does* match the value is
ignored — `serialize_params` applies the built-in enum-to-name conversion
instead of the registered rule's result. -/
theorem c2_builtin_beats_registered_type_rule :
    serializeDict trivialEnv [] [] [(PType.tenumAny, fun _ => .vstr "CUSTOM")]
        [("c", .venum "TempEnum" "ONE")] = [("c", .vstr "ONE")]
    ∧ isinst (.venum "TempEnum" "ONE") PType.tenumAny = true
    ∧ [("c", PValue.vstr "ONE")] ≠ [("c", PValue.vstr "CUSTOM")] :=
  ⟨rfl, rfl, by simp⟩

/-- C2 (amended): in the serialize direction the built-in converters are
applied whenever the registry yields no exact-attribute match, regardless of
any registered type-matched fallback rule; fallback rules are consulted only
for values outside the four built-in kinds. -/
theorem c2_amended_builtin_precedence (env : Env) (ps : List (String × Rule))
    (ts : List (PType × Rule)) (attr : String) (v : PValue)
    (hexact : dget attr ps = none) :
    (isBuiltinKind v = true → serializeValue env ps ts attr v = builtinSerialize env v)
    ∧ (isBuiltinKind v = false → serializeValue env ps ts attr v =
        match findFallback ts v with
        | some f => f v
        | none => v) := by
  cases v with
  | vnone => exact ⟨fun h => by simp [isBuiltinKind] at h,
      fun _ => by simp [serializeValue, hexact]⟩
  | vbool b => exact ⟨fun h => by simp [isBuiltinKind] at h,
      fun _ => by simp [serializeValue, hexact]⟩
  | vint n => exact ⟨fun h => by simp [isBuiltinKind] at h,
      fun _ => by simp [serializeValue, hexact]⟩
  | vstr s => exact ⟨fun h => by simp [isBuiltinKind] at h,
      fun _ => by simp [serializeValue, hexact]⟩
  | vlist xs => exact ⟨fun h => by simp [isBuiltinKind] at h,
      fun _ => by simp [serializeValue, hexact]⟩
  | vdict entries => exact ⟨fun h => by simp [isBuiltinKind] at h,
      fun _ => by simp [serializeValue, hexact]⟩
  | venum e m => exact ⟨fun _ => by simp [serializeValue, hexact, builtinSerialize],
      fun h => by simp [isBuiltinKind] at h⟩
  | vndarray xs => exact ⟨fun _ => by simp [serializeValue, hexact, builtinSerialize],
      fun h => by simp [isBuiltinKind] at h⟩
  | vpath p => exact ⟨fun _ => by simp [serializeValue, hexact, builtinSerialize],
      fun h => by simp [isBuiltinKind] at h⟩
  | vobj c attrs => exact ⟨fun _ => by simp [serializeValue, hexact, builtinSerialize],
      fun h => by simp [isBuiltinKind] at h⟩

/-- Witness for C2 (amended) at a concrete enum value and a fallback rule
that matches it. -/
theorem c2_amended_builtin_precedence_witness :
    serializeValue trivialEnv [] [(PType.tenumAny, fun _ => .vstr "CUSTOM")] "c"
      (.venum "TempEnum" "ONE") = .vstr "ONE" :=
  ((c2_amended_builtin_precedence trivialEnv []
      [(PType.tenumAny, fun _ => .vstr "CUSTOM")] "c"
      (.venum "TempEnum" "ONE") rfl).1 rfl).trans rfl

/-- The `excluded_params` declarations along the method resolution order of
`B(A(Parameterized))`: `B` declares `{"b"}`, `A` declares `{"a"}`,
`Parameterized` declares `set()`. -/
def declsC5 : List (List String) := [["b"], ["a"], []]

/-- Class `B` as the library sees it: its `excluded_params` is found by
attribute lookup (nearest declaration), not by union. -/
def cfgC5 : ClassCfg :=
  ⟨effectiveExcludedParams declsC5, [], [], [], [], [], 0, [], true, storingInit []⟩

/-- An instance of `B` with attributes `a` and `b`. -/
def dictC5 : Dict := [("a", .vint 1), ("b", .vint 2)]

/-- C5 counterexample: `"a"` is in the claimed effective exclusion set (the
union of `B`'s and ancestor `A`'s declarations), yet it appears in
`get_params`' output and `update_from_params` does change it; moreover even
the nearest declaration's name `"b"` is changed when
`use_deserializers=False`. -/
theorem c5_union_exclusion_fails :
    "a" ∈ unionExcludedParams declsC5
    ∧ dget "a" (getParams trivialEnv cfgC5 dictC5) = some (.vint 1)
    ∧ dget "a" (updateFromParams cfgC5 dictC5 [("a", .vint 9)] true) = some (.vint 9)
    ∧ dget "b" (updateFromParams cfgC5 dictC5 [("b", .vint 9)] false) = some (.vint 9) :=
  ⟨by decide, rfl, rfl, rfl⟩

/-- C5 (amended): the exclusion invariant holds for the exclusion set Python
attribute lookup actually finds — the *nearest* `excluded_params`
declaration along the method resolution order, not the union with
ancestors' declarations — and for `update_from_params` along its default
deserializing path (`use_deserializers=True`): such a name never appears in
`get_params`' output and is never changed by an update. -/
theorem c5_amended_nearest_exclusion_invariant (env : Env) (cfg : ClassCfg)
    (decls : List (List String)) (hcfg : cfg.excluded = effectiveExcludedParams decls)
    {name : String} (hname : name ∈ effectiveExcludedParams decls) (d params : Dict) :
    dget name (getParams env cfg d) = none
    ∧ dget name (updateFromParams cfg d params true) = dget name d := by
  have hx : name ∈ cfg.excluded := by rw [hcfg]; exact hname
  constructor
  · exact dget_serializeDict_excl env _ _ hx d
  · have hnone : dget name (deserializeDict cfg.excluded cfg.pdeser cfg.tdeser params)
        = none := dget_deserializeDict_excl _ _ hx params
    rw [dget_updateFromParams]
    cases hd : dget name d <;> simp [hnone]

/-- Witness for C5 (amended): `"b"` (the nearest declaration) is absent from
the output and survives an update attempt. -/
theorem c5_amended_nearest_exclusion_invariant_witness :
    dget "b" (getParams trivialEnv cfgC5 dictC5) = none
    ∧ dget "b" (updateFromParams cfgC5 dictC5 [("b", .vint 9)] true) = some (.vint 2) :=
  ⟨(c5_amended_nearest_exclusion_invariant trivialEnv cfgC5 declsC5 rfl (by decide)
      dictC5 [("b", .vint 9)]).1,
   ((c5_amended_nearest_exclusion_invariant trivialEnv cfgC5 declsC5 rfl (by decide)
      dictC5 [("b", .vint 9)]).2).trans rfl⟩

/-- C6: `update_from_params` updates only attributes that are both a key of
the mapping and an existing attribute of the target: the attribute set is
unchanged (no attribute is ever created), any attribute not named in the
mapping keeps its value, and any attribute whose value changed was named in
the mapping and existed before. -/
theorem c6_update_injection_safety (cfg : ClassCfg) (selfD params : Dict)
    (useDeserializers : Bool) :
    dkeys (updateFromParams cfg selfD params useDeserializers) = dkeys selfD
    ∧ (∀ a, a ∉ dkeys params →
        dget a (updateFromParams cfg selfD params useDeserializers) = dget a selfD)
    ∧ (∀ a, dget a (updateFromParams cfg selfD params useDeserializers) ≠ dget a selfD →
        a ∈ dkeys params ∧ a ∈ dkeys selfD) := by
  have h2 : ∀ a, a ∉ dkeys params →
      dget a (updateFromParams cfg selfD params useDeserializers) = dget a selfD := by
    intro a ha
    have hpn : dget a params = none := (dget_eq_none_iff a params).mpr ha
    have hpn' : dget a (if useDeserializers
        then deserializeDict cfg.excluded cfg.pdeser cfg.tdeser params
        else params) = none := by
      cases useDeserializers
      · simpa using hpn
      · simpa using dget_deserializeDict_none cfg.pdeser cfg.tdeser hpn
    rw [dget_updateFromParams]
    cases hd : dget a selfD <;> simp [hpn']
  refine ⟨dkeys_updateFromParams cfg selfD params useDeserializers, h2, ?_⟩
  intro a hne
  constructor
  · by_contra hp
    exact hne (h2 a hp)
  · by_contra hs
    have hsn : dget a selfD = none := (dget_eq_none_iff a selfD).mpr hs
    have hun : dget a (updateFromParams cfg selfD params useDeserializers) = none := by
      rw [dget_eq_none_iff, dkeys_updateFromParams]
      exact hs
    exact hne (hun.trans hsn.symm)

/-- Witness for C6: the spec's own scenario — target `{i, b, s}`, input
`{i: 100, no: false}`: the attribute set stays `{i, b, s}` and `b` keeps its
value. -/
theorem c6_update_injection_safety_witness :
    dkeys (updateFromParams trivialCfg
        [("i", .vint 5), ("b", .vbool false), ("s", .vstr "Hello")]
        [("i", .vint 100), ("no", .vbool false)] true) = ["i", "b", "s"]
    ∧ dget "b" (updateFromParams trivialCfg
        [("i", .vint 5), ("b", .vbool false), ("s", .vstr "Hello")]
        [("i", .vint 100), ("no", .vbool false)] true) = some (.vbool false) :=
  ⟨((c6_update_injection_safety trivialCfg
      [("i", .vint 5), ("b", .vbool false), ("s", .vstr "Hello")]
      [("i", .vint 100), ("no", .vbool false)] true).1).trans rfl,
   ((c6_update_injection_safety trivialCfg
      [("i", .vint 5), ("b", .vbool false), ("s", .vstr "Hello")]
      [("i", .vint 100), ("no", .vbool false)] true).2.1 "b" (by decide)).trans rfl⟩

/-- C7: rule resolution precedence in the deserialize direction: an
exact-attribute rule's result is used whatever the type-matched fallback
rules would say; with no exact rule the fallback rules are scanned in
registration order, the first whose type matches (`isinstance`) is applied;
with no match at all the value passes through unchanged. -/
theorem c7_deserialize_precedence (pd : List (String × Rule))
    (td : List (PType × Rule)) (attr : String) (v : PValue) :
    (∀ f, dget attr pd = some f → deserializeValue pd td attr v = f v)
    ∧ (dget attr pd = none → ∀ t g td',
        deserializeValue pd ((t, g) :: td') attr v =
          if isinst v t then g v else deserializeValue pd td' attr v)
    ∧ (dget attr pd = none → (∀ p ∈ td, isinst v p.1 = false) →
        deserializeValue pd td attr v = v) := by
  refine ⟨?_, ?_, ?_⟩
  · intro f hf
    simp [deserializeValue, hf]
  · intro h t g td'
    by_cases hi : isinst v t <;> simp [deserializeValue, h, findFallback, hi]
  · intro h hnone
    simp [deserializeValue, h, findFallback_eq_none hnone]

/-- Witness for C7: an exact rule for `"a"` wins over a matching `int`
fallback rule. -/
theorem c7_deserialize_precedence_witness :
    deserializeValue [("a", fun _ => PValue.vint 7)]
      [(PType.tint, fun _ => PValue.vint 9)] "a" (.vint 0) = .vint 7
    ∧ isinst (.vint 0) PType.tint = true :=
  ⟨(c7_deserialize_precedence [("a", fun _ => PValue.vint 7)]
      [(PType.tint, fun _ => PValue.vint 9)] "a" (.vint 0)).1 _ rfl,
   rfl⟩

/-- Python `update_from_params` with an empty mapping and deserializers off leaves
the object untouched. -/
theorem updateFromParams_nil (cfg : ClassCfg) (selfD : Dict) :
    updateFromParams cfg selfD [] false = selfD := by
  unfold updateFromParams
  simp

/-- Unfolding of `create_obj_from_params` when a positional pop fails. -/
theorem createObjFromParams_of_popArgs_error {cfg : ClassCfg} {params : Dict}
    {er : PErr} (hp : popArgs cfg.init_args params = .error er) :
    createObjFromParams cfg params = .error er := by
  simp only [createObjFromParams, hp]

/-- Unfolding of `create_obj_from_params` when the positional pops succeed. -/
theorem createObjFromParams_of_popArgs_ok {cfg : ClassCfg} {params : Dict}
    {vs : List PValue} {d' : Dict}
    (hp : popArgs cfg.init_args params = .ok (vs, d')) :
    createObjFromParams cfg params = .ok (updateFromParams cfg
      (cfg.init_impl vs (if cfg.varkw then (d', ([] : Dict))
        else popKwonly cfg.kwonly d').1)
      (if cfg.varkw then (d', ([] : Dict)) else popKwonly cfg.kwonly d').2 false) := by
  simp only [createObjFromParams, hp]

/-- A class with `__init__(self, x, y=0)`: positional parameters `x` and
`y`, of which `y` carries a default. -/
def cfgC3 : ClassCfg :=
  ⟨[], [], [], [], [], ["x", "y"], 1, [], false, storingInit ["x", "y"]⟩

/-- C3 counterexample: for `__init__(self, x, y=0)` the only required
parameter is `x` and it is present in the mapping, yet
`create_obj_from_params` raises the missing-argument error: the code pops
every positional parameter, defaults included, without consulting
`argspec.defaults`. -/
theorem c3_optional_positional_param_raises :
    requiredArgs cfgC3 = ["x"]
    ∧ dget "x" [("x", PValue.vint 1)] = some (.vint 1)
    ∧ createObjFromParams cfgC3 [("x", .vint 1)] = .error .missingArgument :=
  ⟨rfl, rfl, rfl⟩

/-- C3 (amended): `create_obj_from_params` raises the missing-argument error
exactly when some parameter of the constructor's positional parameter list
(after `self`, *defaults included*) has no same-named key in the mapping;
keyword-only parameters are popped only if present, so their absence is
never an error, and when every positional parameter is present construction
succeeds. -/
theorem c3_amended_missing_argument_iff (cfg : ClassCfg) (params : Dict)
    (hnd : cfg.init_args.Nodup) :
    (createObjFromParams cfg params = .error .missingArgument ↔
      ∃ a ∈ cfg.init_args, dget a params = none)
    ∧ ((∀ a ∈ cfg.init_args, dget a params ≠ none) →
      ∃ d', createObjFromParams cfg params = .ok d') := by
  constructor
  · constructor
    · intro h
      cases hp : popArgs cfg.init_args params with
      | error er =>
        rw [createObjFromParams_of_popArgs_error hp] at h
        injection h with her
        exact (popArgs_missing_iff hnd params).mp (her ▸ hp)
      | ok p =>
        obtain ⟨vs, d'⟩ := p
        rw [createObjFromParams_of_popArgs_ok hp] at h
        simp at h
    · intro hex
      have hp : popArgs cfg.init_args params = .error .missingArgument :=
        (popArgs_missing_iff hnd params).mpr hex
      exact createObjFromParams_of_popArgs_error hp
  · intro hall
    obtain ⟨vs, d', hok, -, -⟩ := popArgs_ok_spec hnd hall
    exact ⟨_, createObjFromParams_of_popArgs_ok hok⟩

/-- A class with `__init__(self, x, *, k=None)` for the C3 witness. -/
def cfgC3w : ClassCfg :=
  ⟨[], [], [], [], [], ["x"], 0, ["k"], false, storingInit ["x"]⟩

/-- Witness for C3 (amended): with `x` present and keyword-only `k` absent,
construction succeeds; with `x` absent it raises. -/
theorem c3_amended_missing_argument_iff_witness :
    (∃ d', createObjFromParams cfgC3w [("x", .vint 1)] = .ok d')
    ∧ createObjFromParams cfgC3w [("y", .vint 2)] = .error .missingArgument :=
  ⟨(c3_amended_missing_argument_iff cfgC3w [("x", .vint 1)] (by decide)).2
      (fun a ha => by
        simp only [cfgC3w] at ha
        rw [List.mem_singleton] at ha
        subst ha
        simp),
   (c3_amended_missing_argument_iff cfgC3w [("y", .vint 2)] (by decide)).1.mpr
      ⟨"x", List.mem_singleton.mpr rfl, rfl⟩⟩

/-- A class whose only constructor parameter `x` is excluded from
serialization (no custom converters anywhere). -/
def cfgC4x : ClassCfg :=
  ⟨["x"], [], [], [], [], ["x"], 0, [], true, storingInit ["x"]⟩

/-- C4 counterexample: a type with no custom converters at all whose
constructor parameter is excluded from serialization: the round trip
produces no instance — `from_params` on the instance's own `get_params`
output raises the missing-argument error. -/
theorem c4_roundtrip_fails_for_excluded_init_arg :
    cfgC4x.pserial = [] ∧ cfgC4x.tserial = [] ∧ cfgC4x.pdeser = [] ∧ cfgC4x.tdeser = []
    ∧ getParams trivialEnv cfgC4x [("x", .vint 5)] = []
    ∧ fromParams cfgC4x (getParams trivialEnv cfgC4x [("x", .vint 5)]) =
        .error .missingArgument :=
  ⟨rfl, rfl, rfl, rfl, rfl, rfl⟩

/-- C4 (amended): the round trip holds for an instance whose type's
converters are lossless on its serialized values, provided the constructor
is bindable from that output: every positional parameter of `__init__` has a
key in the serialized mapping (in particular none is excluded), the
positional names are distinct, and the constructor stores each parameter
under its own name and captures the rest as `**kwargs`.  Then
`from_params(type(e), get_params(e))` succeeds and the new instance's
`get_params` output has exactly the entries of `get_params(e)`. -/
theorem c4_amended_roundtrip (env : Env) (cfg : ClassCfg) (d : Dict)
    (hnda : cfg.init_args.Nodup)
    (hvk : cfg.varkw = true)
    (hinit : ∀ av kw, av.length = cfg.init_args.length →
      cfg.init_impl av kw = cfg.init_args.zip av ++ kw)
    (hargs : ∀ a ∈ cfg.init_args, dget a (getParams env cfg d) ≠ none)
    (hl : ∀ k v, dget k (getParams env cfg d) = some v →
      serializeValue env cfg.pserial cfg.tserial k
        (deserializeValue cfg.pdeser cfg.tdeser k v) = v) :
    ∃ d1, fromParams cfg (getParams env cfg d) = .ok d1
      ∧ ∀ k, dget k (getParams env cfg d1) = dget k (getParams env cfg d) := by
  have hargsq : ∀ a ∈ cfg.init_args,
      dget a (deserializeDict cfg.excluded cfg.pdeser cfg.tdeser
        (getParams env cfg d)) ≠ none := by
    intro a ha
    have hpa := hargs a ha
    have hax : a ∉ cfg.excluded := by
      intro hx
      exact hpa (dget_serializeDict_excl env _ _ hx d)
    rw [dget_deserializeDict _ _ hax]
    cases hv : dget a (getParams env cfg d) with
    | none => exact absurd hv hpa
    | some v => simp
  obtain ⟨vs, d', hok, hlen, hget⟩ := popArgs_ok_spec hnda hargsq
  refine ⟨cfg.init_args.zip vs ++ d', ?_, ?_⟩
  · show createObjFromParams cfg
      (deserializeDict cfg.excluded cfg.pdeser cfg.tdeser (getParams env cfg d)) = _
    simp only [createObjFromParams, hok, hvk, if_true]
    rw [hinit vs d' hlen, updateFromParams_nil]
  · intro k
    by_cases hkx : k ∈ cfg.excluded
    · rw [show getParams env cfg (cfg.init_args.zip vs ++ d')
          = serializeDict env cfg.excluded cfg.pserial cfg.tserial
            (cfg.init_args.zip vs ++ d') from rfl,
        dget_serializeDict_excl env _ _ hkx,
        show getParams env cfg d
          = serializeDict env cfg.excluded cfg.pserial cfg.tserial d from rfl,
        dget_serializeDict_excl env _ _ hkx]
    · rw [show getParams env cfg (cfg.init_args.zip vs ++ d')
          = serializeDict env cfg.excluded cfg.pserial cfg.tserial
            (cfg.init_args.zip vs ++ d') from rfl,
        dget_serializeDict env _ _ hkx, hget k,
        dget_deserializeDict _ _ hkx]
      cases hv : dget k (getParams env cfg d) with
      | none => rfl
      | some v =>
        simp only [Option.map_some']
        rw [hl k v hv]

/-- A class with an attribute-storing `__init__(self, x, **kwargs)` and no
converters, for the C4 witness. -/
def cfgC4w : ClassCfg :=
  ⟨[], [], [], [], [], ["x"], 0, [], true, storingInit ["x"]⟩

/-- Witness for C4 (amended) on a concrete instance `{x: 5}`. -/
theorem c4_amended_roundtrip_witness :
    ∃ d1, fromParams cfgC4w (getParams trivialEnv cfgC4w [("x", .vint 5)]) = .ok d1
      ∧ ∀ k, dget k (getParams trivialEnv cfgC4w d1)
          = dget k (getParams trivialEnv cfgC4w [("x", .vint 5)]) :=
  c4_amended_roundtrip trivialEnv cfgC4w [("x", .vint 5)]
    (by decide)
    rfl
    (fun _ _ _ => rfl)
    (fun a ha => by
      simp only [cfgC4w] at ha
      rw [List.mem_singleton] at ha
      subst ha
      intro hc
      exact Option.noConfusion hc)
    (fun k v hv => by
      by_cases hk : k = "x"
      · subst hk
        have hv' : some (PValue.vint 5) = some v := hv
        injection hv' with h
        subst h
        rfl
      · exact absurd hv (by
          rw [show getParams trivialEnv cfgC4w [("x", PValue.vint 5)]
            = [("x", PValue.vint 5)] from rfl]
          simp [hk]))

/-- A family root below `ParameterizedABC` that never assigns a concrete
`type_enum`: attribute lookup still finds the abstract `property` object. -/
def famC8 : FamilyCfg :=
  ⟨.prop, [], [⟨"Sub1", .concrete "E" "ONE", false, trivialCfg⟩], trivialCfg⟩

/-- C8: the claim says a family root with no declared discriminator
enumeration fails with a `ConfigurationError` at resolution time.  In the
code the guard is `hasattr(cls, "type_enum")`, which is *always* true below
`ParameterizedABC` because the abstract property itself is an attribute, so
the guard is dead: `all_parameterized_subclasses` returns normally (an empty
set), and `from_params` fails later with an unrelated `TypeError`
(subscripting the `property` object) for a name tag, or with the
unknown-variant error for a live enum tag. -/
theorem c8_missing_type_enum_guard_is_dead :
    allParameterizedSubclasses famC8 = .ok []
    ∧ fromParamsABC famC8 [("type", .vstr "ONE")] = .error .typeError
    ∧ fromParamsABC famC8 [("type", .venum "E" "ONE")] = .error .unknownVariant
    ∧ (∀ fam : FamilyCfg, fam.typeEnum = .prop →
        allParameterizedSubclasses fam ≠ .error .typeEnumMissing) := by
  refine ⟨rfl, rfl, rfl, ?_⟩
  intro fam h
  simp [allParameterizedSubclasses, hasattrTypeEnum, h]

/-- Witness for C8's general conjunct at the concrete family `famC8`. -/
theorem c8_missing_type_enum_guard_is_dead_witness :
    allParameterizedSubclasses famC8 ≠ .error .typeEnumMissing :=
  c8_missing_type_enum_guard_is_dead.2.2.2 famC8 rfl

/-- C9: for a family whose root declares a concrete discriminator enum and
whose mapping's `"type"` entry is untouched by the family's deserializers,
`from_params` given the discriminator's symbolic name and given the live
enum value construct the same concrete subclass (the unique eligible member
declaring that discriminator); a tag in the enum matched by no eligible
member yields the unknown-variant error for both tag forms, and a name
outside the enum yields the enum lookup `KeyError` — an error is always
raised, no member is ever chosen silently. -/
theorem c9_resolution_normalizes_and_never_defaults (fam : FamilyCfg)
    (e : String) (members : List String)
    (hte : fam.typeEnum = .concrete e members)
    (hex : "type" ∉ fam.cfg.excluded)
    (hpd : dget "type" fam.cfg.pdeser = none)
    (htdS : ∀ s, findFallback fam.cfg.tdeser (.vstr s) = none)
    (htdE : ∀ s, findFallback fam.cfg.tdeser (.venum e s) = none)
    (rest : Dict) :
    (∀ s m, s ∈ members → m ∈ eligibleSubclasses fam →
      m.typeAttr = .concrete e s →
      (∀ m' ∈ eligibleSubclasses fam, m'.typeAttr = .concrete e s → m' = m) →
      fromParamsABC fam (("type", .vstr s) :: rest)
          = createObjFromParams m.cfg
              (deserializeDict fam.cfg.excluded fam.cfg.pdeser fam.cfg.tdeser rest)
        ∧ fromParamsABC fam (("type", .venum e s) :: rest)
          = createObjFromParams m.cfg
              (deserializeDict fam.cfg.excluded fam.cfg.pdeser fam.cfg.tdeser rest))
    ∧ (∀ s, s ∈ members →
      (∀ m' ∈ eligibleSubclasses fam, m'.typeAttr ≠ .concrete e s) →
      fromParamsABC fam (("type", .vstr s) :: rest) = .error .unknownVariant
        ∧ fromParamsABC fam (("type", .venum e s) :: rest) = .error .unknownVariant)
    ∧ (∀ s, s ∉ members →
      fromParamsABC fam (("type", .vstr s) :: rest) = .error .enumKeyError) := by
  have hguard : ¬(hasattrTypeEnum fam.typeEnum = false) := by
    rw [hte]; simp [hasattrTypeEnum]
  have hdesS : ∀ s, deserializeValue fam.cfg.pdeser fam.cfg.tdeser "type" (.vstr s)
      = .vstr s := fun s => by
    simp [deserializeValue, hpd, htdS s]
  have hdesE : ∀ s, deserializeValue fam.cfg.pdeser fam.cfg.tdeser "type"
      (.venum e s) = .venum e s := fun s => by
    simp [deserializeValue, hpd, htdE s]
  have hrun : ∀ t0, deserializeValue fam.cfg.pdeser fam.cfg.tdeser "type" t0 = t0 →
      fromParamsABC fam (("type", t0) :: rest) =
        (match normalizeTag fam.typeEnum t0 with
         | .error er => .error er
         | .ok norm =>
           match findSubclass norm (eligibleSubclasses fam) with
           | none => .error .unknownVariant
           | some c => createObjFromParams c.cfg
               (deserializeDict fam.cfg.excluded fam.cfg.pdeser fam.cfg.tdeser rest)) := by
    intro t0 hdes
    have hq : deserializeDict fam.cfg.excluded fam.cfg.pdeser fam.cfg.tdeser
        (("type", t0) :: rest)
        = ("type", t0) :: deserializeDict fam.cfg.excluded fam.cfg.pdeser
            fam.cfg.tdeser rest := by
      simp only [deserializeDict, if_neg hex, hdes]
    have hpop : dpop "type" (("type", t0) :: deserializeDict fam.cfg.excluded
        fam.cfg.pdeser fam.cfg.tdeser rest)
        = some (t0, deserializeDict fam.cfg.excluded fam.cfg.pdeser
            fam.cfg.tdeser rest) := by
      simp [dpop]
    simp only [fromParamsABC, if_neg hguard, hq, hpop]
  refine ⟨?_, ?_, ?_⟩
  · intro s m hs hm hms huniq
    have hfind : findSubclass (e, s) (eligibleSubclasses fam) = some m :=
      findSubclass_eq_some hm hms huniq
    constructor
    · rw [hrun (.vstr s) (hdesS s)]
      rw [show normalizeTag fam.typeEnum (.vstr s) = .ok (e, s) by
        rw [hte]; simp [normalizeTag, hs]]
      simp only [hfind]
    · rw [hrun (.venum e s) (hdesE s)]
      rw [show normalizeTag fam.typeEnum (.venum e s) = .ok (e, s) from rfl]
      simp only [hfind]
  · intro s hs hnone
    have hfind : findSubclass (e, s) (eligibleSubclasses fam) = none :=
      findSubclass_eq_none hnone
    constructor
    · rw [hrun (.vstr s) (hdesS s)]
      rw [show normalizeTag fam.typeEnum (.vstr s) = .ok (e, s) by
        rw [hte]; simp [normalizeTag, hs]]
      simp only [hfind]
    · rw [hrun (.venum e s) (hdesE s)]
      rw [show normalizeTag fam.typeEnum (.venum e s) = .ok (e, s) from rfl]
      simp only [hfind]
  · intro s hs
    rw [hrun (.vstr s) (hdesS s)]
    rw [show normalizeTag fam.typeEnum (.vstr s) = .error .enumKeyError by
      rw [hte]; simp [normalizeTag, hs]]

/-- Family member `S1` with discriminator `E.ONE`. -/
def subOne : ABCSub := ⟨"S1", .concrete "E" "ONE", false, trivialCfg⟩

/-- Family member `S2` with discriminator `E.TWO`. -/
def subTwo : ABCSub := ⟨"S2", .concrete "E" "TWO", false, trivialCfg⟩

/-- A family root with discriminator enum `E = {ONE, TWO, THREE}` and
concrete members `S1 ↦ ONE`, `S2 ↦ TWO` (no member declares `THREE`). -/
def famC9 : FamilyCfg :=
  ⟨.concrete "E" ["ONE", "TWO", "THREE"], [], [subOne, subTwo], trivialCfg⟩

/-- Witness for C9: tag `"TWO"` and the live value `E.TWO` construct the same
member; `"THREE"` (in the enum, declared by no member) is the
unknown-variant error; `"FOUR"` (outside the enum) is the enum `KeyError`. -/
theorem c9_resolution_normalizes_and_never_defaults_witness :
    fromParamsABC famC9 [("type", .vstr "TWO"), ("x", .vint 1)]
      = fromParamsABC famC9 [("type", .venum "E" "TWO"), ("x", .vint 1)]
    ∧ fromParamsABC famC9 [("type", .vstr "THREE"), ("x", .vint 1)]
      = .error .unknownVariant
    ∧ fromParamsABC famC9 [("type", .vstr "FOUR"), ("x", .vint 1)]
      = .error .enumKeyError := by
  have huniq2 : ∀ m' ∈ eligibleSubclasses famC9,
      m'.typeAttr = .concrete "E" "TWO" → m' = subTwo := by
    intro m' hm' ht
    rcases List.mem_cons.mp hm' with rfl | hm'
    · exact absurd ht (by simp [subOne])
    · rcases List.mem_cons.mp hm' with rfl | hm'
      · rfl
      · cases hm'
  have hnone3 : ∀ m' ∈ eligibleSubclasses famC9,
      m'.typeAttr ≠ .concrete "E" "THREE" := by
    intro m' hm'
    rcases List.mem_cons.mp hm' with rfl | hm'
    · exact by simp [subOne]
    · rcases List.mem_cons.mp hm' with rfl | hm'
      · exact by simp [subTwo]
      · cases hm'
  have h9 := c9_resolution_normalizes_and_never_defaults famC9 "E"
    ["ONE", "TWO", "THREE"] rfl (by simp [famC9, trivialCfg]) rfl
    (fun _ => rfl) (fun _ => rfl) [("x", .vint 1)]
  obtain ⟨hA, hB⟩ := h9.1 "TWO" subTwo (by decide)
    (List.Mem.tail _ (List.Mem.head _)) rfl huniq2
  exact ⟨hA.trans hB.symm,
    (h9.2.1 "THREE" (by decide) hnone3).1,
    h9.2.2 "FOUR" (by decide)⟩

/-- Store writes keep the store's size (a dict write is in place). -/
theorem length_writeS (st : Store) (i : Nat) (d : Dict) :
    (writeS st i d).length = st.length := by
  simp [writeS]

/-- The deserialize rewrite loop writes in place, keeping the store's size. -/
theorem length_deserializeLoopS (pd : List (String × Rule))
    (td : List (PType × Rule)) (res : Nat) (st : Store) (ks : List String) :
    (deserializeLoopS pd td st res ks).length = st.length := by
  induction ks generalizing st with
  | nil => rfl
  | cons k rest ih =>
    simp only [deserializeLoopS]
    cases dget k (readS st res) with
    | none => exact ih st
    | some v => exact (ih _).trans (length_writeS st res _)

/-- Python `create_obj_from_params` on the store leaves every pre-existing dict
object unchanged: its only writes go to the freshly allocated
`params.copy()`. -/
theorem readS_createObjFromParamsS (cfg : ClassCfg) (st : Store) (r : Nat)
    {j : Nat} (hj : j < st.length) :
    readS (createObjFromParamsS cfg st r).1 j = readS st j := by
  have hne : j ≠ st.length := Nat.ne_of_lt hj
  rcases hp : popArgsS (st ++ [readS st r]) st.length cfg.init_args with ⟨st2, res⟩
  have h2 : readS st2 j = readS st j := by
    have hh := readS_popArgsS hne (st ++ [readS st r]) cfg.init_args
    rw [hp] at hh
    exact hh.trans (readS_append_of_lt hj _)
  show readS (match popArgsS (st ++ [readS st r]) st.length cfg.init_args with
    | (st2, Except.error e) => (st2, Except.error e)
    | (st2, Except.ok argvals) =>
      if cfg.varkw then
        (st2, Except.ok (updateFromParams cfg
          (cfg.init_impl argvals (readS st2 st.length)) [] false))
      else
        ((popKwonlyS st2 st.length cfg.kwonly).1,
          Except.ok (updateFromParams cfg
            (cfg.init_impl argvals (popKwonlyS st2 st.length cfg.kwonly).2)
            (readS (popKwonlyS st2 st.length cfg.kwonly).1 st.length) false))).1 j
    = readS st j
  rw [hp]
  cases res with
  | error e => simpa using h2
  | ok argvals =>
    by_cases hv : cfg.varkw = true
    · simp only [hv, if_true]
      simpa using h2
    · simp only [if_neg hv]
      simpa using (readS_popKwonlyS hne st2 cfg.kwonly).trans h2

/-- C10: callers' mappings are never mutated: `serialize_params` and
`deserialize_params` build a fresh `result` dict (a different object from
the argument) and write only to it; `create_obj_from_params` pops only from
its `params.copy()`; `from_params` composes the two — in every case the
dict object the caller passed in holds the same entries after the call. -/
theorem c10_caller_mapping_never_mutated (env : Env) (excl : List String)
    (ps pd : List (String × Rule)) (ts td : List (PType × Rule)) (cfg : ClassCfg)
    (st : Store) (i : Nat) (h : i < st.length) :
    readS (serializeParamsS env excl ps ts st i).1 i = readS st i
    ∧ (serializeParamsS env excl ps ts st i).2 ≠ i
    ∧ readS (deserializeParamsS excl pd td st i).1 i = readS st i
    ∧ (deserializeParamsS excl pd td st i).2 ≠ i
    ∧ readS (createObjFromParamsS cfg st i).1 i = readS st i
    ∧ readS (fromParamsS cfg st i).1 i = readS st i := by
  have hne : i ≠ st.length := Nat.ne_of_lt h
  refine ⟨?_, ?_, ?_, ?_, ?_, ?_⟩
  · show readS (serializeLoopS env ps ts (st ++ [_]) st.length _) i = readS st i
    exact (readS_serializeLoopS hne _ _).trans (readS_append_of_lt h _)
  · show st.length ≠ i
    exact hne.symm
  · show readS (deserializeLoopS pd td (st ++ [_]) st.length _) i = readS st i
    exact (readS_deserializeLoopS hne _ _).trans (readS_append_of_lt h _)
  · show st.length ≠ i
    exact hne.symm
  · exact readS_createObjFromParamsS cfg st i h
  · show readS (createObjFromParamsS cfg
      (deserializeParamsS cfg.excluded cfg.pdeser cfg.tdeser st i).1
      (deserializeParamsS cfg.excluded cfg.pdeser cfg.tdeser st i).2).1 i
      = readS st i
    have hlen : i < (deserializeParamsS cfg.excluded cfg.pdeser cfg.tdeser st i).1.length := by
      show i < (deserializeLoopS _ _ (st ++ [_]) st.length _).length
      rw [length_deserializeLoopS]
      simpa using Nat.lt_succ_of_lt h
    exact (readS_createObjFromParamsS cfg _ _ hlen).trans
      ((readS_deserializeLoopS hne _ _).trans (readS_append_of_lt h _))

/-- Witness for C10 on a one-dict store. -/
theorem c10_caller_mapping_never_mutated_witness :
    readS (fromParamsS trivialCfg [[("x", .vint 1)]] 0).1 0 = [("x", .vint 1)]
    ∧ (serializeParamsS trivialEnv [] [] [] [[("x", .vint 1)]] 0).2 ≠ 0 :=
  ⟨((c10_caller_mapping_never_mutated trivialEnv [] [] [] [] [] trivialCfg
      [[("x", PValue.vint 1)]] 0 (by decide)).2.2.2.2.2).trans rfl,
   (c10_caller_mapping_never_mutated trivialEnv [] [] [] [] [] trivialCfg
      [[("x", PValue.vint 1)]] 0 (by decide)).2.1⟩

end Parameterized

